import Mathlib

/-!
# Verification of the rusty_roguelike map generator and movement validator

Shallow embedding of `src/map.rs` (room/corridor map generation on an 80×50
tile grid) and `src/player.rs` (the movement validator `try_move_player`).

Machine-integer conventions: Rust `i32` coordinates are modelled as `Int`
(all reachable values are far from the i32 boundaries, so no 32-bit wrap can
occur); Rust `usize` values are modelled as `Nat` reduced modulo `2^64`
exactly where the Rust code performs `as usize` casts and wrapping
arithmetic (`xy_idx`).  Rust indexing panics are modelled with `Option`
(`none` = panic) in the movement validator, where an out-of-bounds index is
reachable.

The `Rect` type and the `Viewshed`/`Position` component declarations live in
files of the repository that are not part of `src/`; they are modelled from
the spec where so marked.  The external `rltk::RandomNumberGenerator` is
modelled as explicit streams of raw draws (`Nat → Nat`), with
`range(min,max)` = `min + raw % (max-min)` and `roll_dice(1,n)` =
`1 + raw % n`, matching the documented value ranges of the library.
-/

namespace RustyRogue

/-- `crate::WIDTH` from `src/main.rs`: the grid width, 80. -/
def WIDTH : Int := 80

/-- `crate::HEIGHT` from `src/main.rs`: the grid height, 50. -/
def HEIGHT : Int := 50

/-- `2^64`, the modulus of Rust `usize` arithmetic on a 64-bit target. -/
def USIZE : Nat := 2 ^ 64

/-- The Rust cast `x as usize` for an `i32` value `x`: two's-complement
reinterpretation, i.e. reduction modulo `2^64`. -/
def intToUsize (x : Int) : Nat := (x % (2 ^ 64 : Int)).toNat

/-- `TileType` from `src/map.rs`: a closed enumeration of tile kinds. -/
inductive TileType where
  | Wall : TileType
  | Floor : TileType
deriving DecidableEq, Repr

/-- Modelled from the spec: `RectRegion` (`Rect`), an axis-aligned rectangle
`x1,y1,x2,y2`.  The `Rect` module is referenced by `src/map.rs`
(`use super::Rect`) but its source file is not under `src/`. -/
structure Rect where
  x1 : Int
  y1 : Int
  x2 : Int
  y2 : Int
deriving DecidableEq, Repr

/-- Modelled from the spec: `Rect::new(x, y, w, h)` builds the rectangle
`(x, y, x+w, y+h)`. -/
def Rect.new (x y w h : Int) : Rect := ⟨x, y, x + w, y + h⟩

/-- Modelled from the spec: `intersect` is true iff the rectangles overlap
using inclusive bounds:
`x1 <= other.x2 && x2 >= other.x1 && y1 <= other.y2 && y2 >= other.y1`. -/
def Rect.intersect (a other : Rect) : Bool :=
  decide (a.x1 ≤ other.x2) && decide (a.x2 ≥ other.x1) &&
  decide (a.y1 ≤ other.y2) && decide (a.y2 ≥ other.y1)

/-- Modelled from the spec: `center()` is the integer midpoint.  All centers
reached by generation are nonnegative, where Rust's truncating division and
floor division agree. -/
def Rect.center (r : Rect) : Int × Int := ((r.x1 + r.x2) / 2, (r.y1 + r.y2) / 2)

/-- `Map` from `src/map.rs`: the level state. -/
structure Map where
  tiles : List TileType
  rooms : List Rect
  revealed_tiles : List Bool
  visible_tiles : List Bool
deriving DecidableEq, Repr

/-- `Map::xy_idx` from `src/map.rs`:
`(y as usize * crate::WIDTH as usize) + x as usize`, with `usize`
wrapping semantics. -/
def xy_idx (x y : Int) : Nat := (intToUsize y * 80 + intToUsize x) % USIZE

/-- The inclusive integer range `lo..=hi` of a Rust `for` loop, as a list
(empty when `hi < lo`). -/
def intRangeIncl (lo hi : Int) : List Int :=
  (List.range (hi + 1 - lo).toNat).map (fun (k : Nat) => lo + (k : Int))

/-- `Map::apply_room_to_map` from `src/map.rs`: for `y in y1+1..=y2`, for
`x in x1+1..=x2`, set `tiles[xy_idx(x,y)] = Floor`.  (The Rust write panics
out of bounds; generation only ever reaches in-bounds interiors, proved
below, so the `List.set` no-op on out-of-bounds never diverges from it on
reachable inputs.) -/
def apply_room_to_map (m : Map) (room : Rect) : Map :=
  { m with tiles :=
      (intRangeIncl (room.y1 + 1) room.y2).foldl (fun ts y =>
        (intRangeIncl (room.x1 + 1) room.x2).foldl (fun ts' x =>
          ts'.set (xy_idx x y) TileType.Floor) ts) m.tiles }

/-- `Map::apply_horizontal_tunnel` from `src/map.rs`: for
`x in min(x1,x2)..=max(x1,x2)`, write `Floor` at `xy_idx(x,y)` only when
`idx > 0 && idx < WIDTH*HEIGHT`. -/
def apply_horizontal_tunnel (m : Map) (x1 x2 y : Int) : Map :=
  { m with tiles :=
      (intRangeIncl (min x1 x2) (max x1 x2)).foldl (fun ts x =>
        let idx := xy_idx x y
        if 0 < idx ∧ idx < 80 * 50 then ts.set idx TileType.Floor else ts) m.tiles }

/-- `Map::apply_vertical_tunnel` from `src/map.rs`: for
`y in min(y1,y2)..=max(y1,y2)`, write `Floor` at `xy_idx(x,y)` only when
`idx > 0 && idx < WIDTH*HEIGHT`. -/
def apply_vertical_tunnel (m : Map) (y1 y2 x : Int) : Map :=
  { m with tiles :=
      (intRangeIncl (min y1 y2) (max y1 y2)).foldl (fun ts y =>
        let idx := xy_idx x y
        if 0 < idx ∧ idx < 80 * 50 then ts.set idx TileType.Floor else ts) m.tiles }

/-- Model of `rltk::RandomNumberGenerator::range(min,max)`: a value in
`[min, max)`, produced from one raw draw as `min + raw % (max - min)`. -/
def rngRange (raw : Nat) (lo hi : Int) : Int := lo + ((raw % (hi - lo).toNat : Nat) : Int)

/-- Model of `rltk::RandomNumberGenerator::roll_dice(1,n)`: a value in
`[1, n]`, produced from one raw draw as `1 + raw % n`. -/
def rollDice (raw : Nat) (n : Int) : Int := 1 + ((raw % n.toNat : Nat) : Int)

/-- `Map::connect_room_to_previous_room` from `src/map.rs`.  The Rust code
constructs a fresh `RandomNumberGenerator` inside this function and draws
`range(0,2)`; the raw draw of that fresh generator is the `coin` argument
here. -/
def connect_room_to_previous_room (coin : Nat) (m : Map) (new_room prev_room : Rect) : Map :=
  let c := new_room.center
  let p := prev_room.center
  if rngRange coin 0 2 = 1 then
    apply_vertical_tunnel (apply_horizontal_tunnel m p.1 c.1 p.2) p.2 c.2 c.1
  else
    apply_vertical_tunnel (apply_horizontal_tunnel m p.1 c.1 c.2) p.2 c.2 p.1

/-- One iteration of the `for _ in 0..MAX_ROOMS` loop of
`Map::add_rooms_and_corridors` (`src/map.rs`).  Iteration `i` consumes the
four raw draws `rng (4i) .. rng (4i+3)` of the loop's generator for
`w`, `h`, `x`, `y`; `rng2 i` is the raw draw of the fresh generator created
inside `connect_room_to_previous_room` when that call happens. -/
def gen_iter (rng rng2 : Nat → Nat) (s : Map × List Rect) (i : Nat) : Map × List Rect :=
  let w := rngRange (rng (4 * i)) 6 10
  let h := rngRange (rng (4 * i + 1)) 6 10
  let x := rollDice (rng (4 * i + 2)) (WIDTH - w - 1) - 1
  let y := rollDice (rng (4 * i + 3)) (HEIGHT - h - 1) - 1
  let new_room := Rect.new x y w h
  let ok := s.2.all (fun other_room => !(new_room.intersect other_room))
  if ok then
    let m1 := apply_room_to_map s.1 new_room
    let m2 := match s.2.getLast? with
      | some prev_room => connect_room_to_previous_room (rng2 i) m1 new_room prev_room
      | none => m1
    (m2, s.2 ++ [new_room])
  else
    s

/-- The state after the `for _ in 0..MAX_ROOMS` loop of
`Map::add_rooms_and_corridors`: the mutated map and the local `rooms` vec. -/
def genFold (rng rng2 : Nat → Nat) (m : Map) : Map × List Rect :=
  (List.range 30).foldl (gen_iter rng rng2) (m, [])

/-- `Map::add_rooms_and_corridors` from `src/map.rs`: run the loop
`MAX_ROOMS = 30` times, then store the accepted-room list in `self.rooms`. -/
def add_rooms_and_corridors (rng rng2 : Nat → Nat) (m : Map) : Map :=
  { (genFold rng rng2 m).1 with rooms := (genFold rng rng2 m).2 }

/-- The freshly constructed map of `new_map_rooms_and_corridors`
(`src/map.rs`) before `add_rooms_and_corridors` runs: all tiles `Wall`, no
rooms, all flags `false`, each array of length `MAP_LENGTH = WIDTH * HEIGHT
= 4000`. -/
def initialMap : Map :=
  { tiles := List.replicate (80 * 50) TileType.Wall
    rooms := []
    revealed_tiles := List.replicate (80 * 50) false
    visible_tiles := List.replicate (80 * 50) false }

/-- `Map::new_map_rooms_and_corridors` from `src/map.rs`: build `initialMap`,
then `add_rooms_and_corridors`. -/
def new_map_rooms_and_corridors (rng rng2 : Nat → Nat) : Map :=
  add_rooms_and_corridors rng rng2 initialMap

/-- `Position` from `src/main.rs`: an entity's integer coordinates. -/
structure Position where
  x : Int
  y : Int
deriving DecidableEq, Repr

/-- Modelled from the spec: `Viewshed` holds a `dirty` flag the movement
validator sets on an accepted move.  Its declaring file (the later
`main.rs`) is not under `src/`; only the `dirty` field is touched by the
code in scope. -/
structure Viewshed where
  dirty : Bool
deriving DecidableEq, Repr

/-- The slice of ECS state `try_move_player` touches for one joined player
entity: its `Position`, its `Viewshed`, and the fetched `Map` (fetched
read-only; it is never written by the function). -/
structure World where
  map : Map
  pos : Position
  viewshed : Viewshed
deriving DecidableEq, Repr

/-- `try_move_player` from `src/player.rs`, for one joined entity.
`destination_idx = xy_idx(pos.x + dx, pos.y + dy)` is computed first and
`map.tiles[destination_idx]` is read unconditionally; an out-of-bounds index
is a Rust panic, modelled as `none`.  On a non-`Wall` destination the
position is clamped to `[0, WIDTH-1] × [0, HEIGHT-1]` and `viewshed.dirty`
is set. -/
def try_move_player (delta_x delta_y : Int) (w : World) : Option World :=
  let destination_idx := xy_idx (w.pos.x + delta_x) (w.pos.y + delta_y)
  match w.map.tiles[destination_idx]? with
  | none => none
  | some t =>
    if t ≠ TileType.Wall then
      some { w with
        pos := { x := min (WIDTH - 1) (max 0 (w.pos.x + delta_x))
                 y := min (HEIGHT - 1) (max 0 (w.pos.y + delta_y)) }
        viewshed := { dirty := true } }
    else
      some w

/-! ## Carving: all tile mutations of generation write `Floor` at a list of
indices.  `carve` abstracts the common shape of the three carving loops. -/

def carve (ts : List TileType) (idxs : List Nat) : List TileType :=
  idxs.foldl (fun acc i => acc.set i TileType.Floor) ts

/-- The guard of the two tunnel loops: `idx > 0 && idx < WIDTH*HEIGHT`. -/
def tunnelGuard (idx : Nat) : Bool := decide (0 < idx) && decide (idx < 80 * 50)

def htIdxs (x1 x2 y : Int) : List Nat :=
  ((intRangeIncl (min x1 x2) (max x1 x2)).map (fun x => xy_idx x y)).filter tunnelGuard

def vtIdxs (y1 y2 x : Int) : List Nat :=
  ((intRangeIncl (min y1 y2) (max y1 y2)).map (fun y => xy_idx x y)).filter tunnelGuard

def roomIdxs (room : Rect) : List Nat :=
  (intRangeIncl (room.y1 + 1) room.y2).flatMap
    (fun y => (intRangeIncl (room.x1 + 1) room.x2).map (fun x => xy_idx x y))

/-! ## Concrete grids for witnesses and counterexamples -/

/-- An 80×50 grid whose tiles are all `Floor`. -/
def allFloorMap : Map :=
  { tiles := List.replicate (80 * 50) TileType.Floor
    rooms := []
    revealed_tiles := List.replicate (80 * 50) false
    visible_tiles := List.replicate (80 * 50) false }

/-- An 80×50 grid whose tiles are all `Wall`. -/
def allWallMap : Map :=
  { tiles := List.replicate (80 * 50) TileType.Wall
    rooms := []
    revealed_tiles := List.replicate (80 * 50) false
    visible_tiles := List.replicate (80 * 50) false }

/-- `allFloorMap` with a single `Wall` at `(5,4)` (the spec's blocked-move
example: `Floor` at `(5,5)`, `Wall` at `(5,4)`). -/
def blockedMap : Map :=
  { allFloorMap with tiles := allFloorMap.tiles.set (xy_idx 5 4) TileType.Wall }

/-- The indices computed along a horizontal corridor line, before the guard. -/
def hLineIdxs (x1 x2 y : Int) : List Nat :=
  (intRangeIncl (min x1 x2) (max x1 x2)).map (fun x => xy_idx x y)

/-- The indices computed along a vertical corridor line, before the guard. -/
def vLineIdxs (y1 y2 x : Int) : List Nat :=
  (intRangeIncl (min y1 y2) (max y1 y2)).map (fun y => xy_idx x y)

/-! ## Floor paths (4-connected), for the chain-connectivity claim -/

/-- The tile at position `p` of tile array `ts` is `Floor`. -/
def isFloorT (ts : List TileType) (p : Int × Int) : Prop :=
  ts[xy_idx p.1 p.2]? = some TileType.Floor

/-- 4-connectivity of two grid positions. -/
def adjacent (p q : Int × Int) : Prop :=
  (p.1 = q.1 ∧ (p.2 = q.2 + 1 ∨ q.2 = p.2 + 1)) ∨
  (p.2 = q.2 ∧ (p.1 = q.1 + 1 ∨ q.1 = p.1 + 1))

/-- A path of `Floor` tiles, each step 4-connected, every visited tile
`Floor`. -/
inductive FloorPath (ts : List TileType) : Int × Int → Int × Int → Prop where
  | refl (p : Int × Int) (h : isFloorT ts p) : FloorPath ts p p
  | step {p q r : Int × Int} (hadj : adjacent p q) (hf : isFloorT ts p)
      (hrest : FloorPath ts q r) : FloorPath ts p r

/-- The placement guarantee every accepted room enjoys: it fits strictly
inside the 80×50 border with the generated size in `[6,9]`. -/
def WellPlaced (r : Rect) : Prop :=
  0 ≤ r.x1 ∧ r.x1 + 6 ≤ r.x2 ∧ r.x2 ≤ 78 ∧ 0 ≤ r.y1 ∧ r.y1 + 6 ≤ r.y2 ∧ r.y2 ≤ 48

/-- An index that names a tile strictly inside the border. -/
def InteriorIdx (j : Nat) : Prop :=
  ∃ x y : Int, 1 ≤ x ∧ x ≤ 78 ∧ 1 ≤ y ∧ y ≤ 48 ∧ j = xy_idx x y

/-- Every `Floor` of `ts` is still `Floor` in `ts'`. -/
def floorMono (ts ts' : List TileType) : Prop :=
  ∀ j : Nat, ts[j]? = some TileType.Floor → ts'[j]? = some TileType.Floor

/-- The loop invariant of `add_rooms_and_corridors`: fixed array lengths,
pairwise-disjoint and well-placed accepted rooms, carved room interiors,
chain connectivity between consecutive accepted rooms' centers, and every
`Floor` tile strictly inside the border. -/
structure GenInv (s : Map × List Rect) : Prop where
  lenTiles : s.1.tiles.length = 80 * 50
  lenRev : s.1.revealed_tiles.length = 80 * 50
  lenVis : s.1.visible_tiles.length = 80 * 50
  pw : s.2.Pairwise (fun a b => a.intersect b = false)
  placed : ∀ r ∈ s.2, WellPlaced r
  carved : ∀ r ∈ s.2, ∀ x y : Int, r.x1 + 1 ≤ x → x ≤ r.x2 → r.y1 + 1 ≤ y → y ≤ r.y2 →
    isFloorT s.1.tiles (x, y)
  chain : ∀ (i : Nat) (a b : Rect), s.2[i]? = some a → s.2[i + 1]? = some b →
    FloorPath s.1.tiles b.center a.center
  floorsInterior : ∀ j : Nat, s.1.tiles[j]? = some TileType.Floor → InteriorIdx j

/-! ## Index arithmetic -/

theorem intToUsize_eq_toNat {x : Int} (h0 : 0 ≤ x) (h : x < 2 ^ 64) :
    intToUsize x = x.toNat := by
  unfold intToUsize
  rw [Int.emod_eq_of_lt h0 h]

theorem xy_idx_eq {x y : Int} (hx0 : 0 ≤ x) (hx : x < 80) (hy0 : 0 ≤ y) (hy : y < 50) :
    xy_idx x y = y.toNat * 80 + x.toNat := by
  unfold xy_idx USIZE
  rw [intToUsize_eq_toNat hx0 (by omega), intToUsize_eq_toNat hy0 (by omega)]
  apply Nat.mod_eq_of_lt
  have h64 : (2 : Nat) ^ 64 = 18446744073709551616 := by norm_num
  omega

theorem xy_idx_lt {x y : Int} (hx0 : 0 ≤ x) (hx : x < 80) (hy0 : 0 ≤ y) (hy : y < 50) :
    xy_idx x y < 4000 := by
  rw [xy_idx_eq hx0 hx hy0 hy]
  omega

theorem xy_idx_inj {x y x' y' : Int} (hx0 : 0 ≤ x) (hx : x < 80) (hy0 : 0 ≤ y) (hy : y < 50)
    (hx0' : 0 ≤ x') (hx' : x' < 80) (hy0' : 0 ≤ y') (hy' : y' < 50)
    (h : xy_idx x y = xy_idx x' y') : x = x' ∧ y = y' := by
  rw [xy_idx_eq hx0 hx hy0 hy, xy_idx_eq hx0' hx' hy0' hy'] at h
  omega

/-! ## Inclusive integer ranges -/

theorem mem_intRangeIncl {lo hi x : Int} : x ∈ intRangeIncl lo hi ↔ lo ≤ x ∧ x ≤ hi := by
  unfold intRangeIncl
  simp only [List.mem_map, List.mem_range]
  constructor
  · rintro ⟨k, hk, rfl⟩
    omega
  · rintro ⟨h1, h2⟩
    exact ⟨(x - lo).toNat, by omega, by omega⟩

theorem carve_length (ts : List TileType) (idxs : List Nat) :
    (carve ts idxs).length = ts.length := by
  induction idxs generalizing ts with
  | nil => rfl
  | cons i rest ih =>
    show (carve (ts.set i TileType.Floor) rest).length = _
    rw [ih, List.length_set]

theorem carve_getElem? (ts : List TileType) (idxs : List Nat) (j : Nat) :
    (carve ts idxs)[j]? =
      if j ∈ idxs ∧ j < ts.length then some TileType.Floor else ts[j]? := by
  induction idxs generalizing ts with
  | nil => simp [carve]
  | cons i rest ih =>
    show (carve (ts.set i TileType.Floor) rest)[j]? = _
    rw [ih, List.length_set]
    by_cases hmem : j ∈ rest
    · by_cases hlt : j < ts.length
      · simp [hmem, hlt]
      · simp only [hmem, hlt, and_false, and_true, if_false, List.mem_cons, or_true, true_and]
        rw [List.getElem?_eq_none (by simp; omega), List.getElem?_eq_none (by omega)]
    · simp only [hmem, false_and, if_false, List.mem_cons, or_false]
      by_cases hij : j = i
      · subst hij
        by_cases hlt : j < ts.length
        · simp [hlt, List.getElem?_set_self hlt]
        · simp only [hlt, and_false, if_false]
          rw [List.getElem?_eq_none (by simp; omega), List.getElem?_eq_none (by omega)]
      · rw [List.getElem?_set_ne (fun h => hij h.symm)]
        simp [hij]

theorem carve_floor_mono {ts : List TileType} {j : Nat} (idxs : List Nat)
    (h : ts[j]? = some TileType.Floor) :
    (carve ts idxs)[j]? = some TileType.Floor := by
  rw [carve_getElem?]
  split
  · rfl
  · exact h

theorem carve_not_mem {ts : List TileType} {j : Nat} {idxs : List Nat} (h : j ∉ idxs) :
    (carve ts idxs)[j]? = ts[j]? := by
  rw [carve_getElem?]
  simp [h]

/-! ## The three carving operations as `carve` at explicit index lists -/

theorem foldl_guard_set (f : Int → Nat) (xs : List Int) (ts : List TileType) :
    xs.foldl (fun acc x => if 0 < f x ∧ f x < 80 * 50 then acc.set (f x) TileType.Floor else acc) ts
      = carve ts ((xs.map f).filter tunnelGuard) := by
  induction xs generalizing ts with
  | nil => rfl
  | cons a rest ih =>
    simp only [List.foldl_cons, List.map_cons, List.filter_cons]
    by_cases h : 0 < f a ∧ f a < 80 * 50
    · rw [if_pos h]
      have hg : tunnelGuard (f a) = true := by
        simp only [tunnelGuard, Bool.and_eq_true, decide_eq_true_eq]
        exact h
      rw [hg]
      exact ih (ts.set (f a) TileType.Floor)
    · rw [if_neg h]
      have hg : tunnelGuard (f a) = false := by
        simp only [tunnelGuard, Bool.and_eq_false_iff, decide_eq_false_iff_not]
        omega
      rw [hg]
      exact ih ts

theorem foldl_set_nested (ys : List Int) (row : Int → List Nat) (ts : List TileType) :
    ys.foldl (fun acc y => (row y).foldl (fun a i => a.set i TileType.Floor) acc) ts
      = carve ts (ys.flatMap row) := by
  induction ys generalizing ts with
  | nil => rfl
  | cons a rest ih =>
    simp only [List.foldl_cons, List.flatMap_cons]
    rw [ih ((row a).foldl (fun a i => a.set i TileType.Floor) ts)]
    show carve (carve ts (row a)) (rest.flatMap row) = carve ts (row a ++ rest.flatMap row)
    unfold carve
    rw [List.foldl_append]

theorem apply_horizontal_tunnel_tiles (m : Map) (x1 x2 y : Int) :
    (apply_horizontal_tunnel m x1 x2 y).tiles = carve m.tiles (htIdxs x1 x2 y) :=
  foldl_guard_set (fun x => xy_idx x y) _ m.tiles

theorem apply_vertical_tunnel_tiles (m : Map) (y1 y2 x : Int) :
    (apply_vertical_tunnel m y1 y2 x).tiles = carve m.tiles (vtIdxs y1 y2 x) :=
  foldl_guard_set (fun y => xy_idx x y) _ m.tiles

theorem apply_room_to_map_tiles (m : Map) (room : Rect) :
    (apply_room_to_map m room).tiles = carve m.tiles (roomIdxs room) := by
  show (intRangeIncl (room.y1 + 1) room.y2).foldl (fun ts y =>
        (intRangeIncl (room.x1 + 1) room.x2).foldl (fun ts' x =>
          ts'.set (xy_idx x y) TileType.Floor) ts) m.tiles
      = carve m.tiles (roomIdxs room)
  rw [List.foldl_ext _ (fun acc y =>
        ((intRangeIncl (room.x1 + 1) room.x2).map (fun x => xy_idx x y)).foldl
          (fun a i => a.set i TileType.Floor) acc) m.tiles
      (by intro acc y _; simp only []; rw [List.foldl_map])]
  exact foldl_set_nested _ _ m.tiles

theorem apply_room_to_map_rooms (m : Map) (room : Rect) :
    (apply_room_to_map m room).rooms = m.rooms := rfl

theorem apply_horizontal_tunnel_rooms (m : Map) (x1 x2 y : Int) :
    (apply_horizontal_tunnel m x1 x2 y).rooms = m.rooms := rfl

theorem apply_vertical_tunnel_rooms (m : Map) (y1 y2 x : Int) :
    (apply_vertical_tunnel m y1 y2 x).rooms = m.rooms := rfl

/-! ## Movement validator -/

/-- C4: when the destination tile of `try_move_player` is `Wall`, the call
returns the world unchanged: position, viewshed dirty flag and grid are
exactly as before — a silent no-op, not an error. -/
theorem c4_blocked_move_is_no_op (delta_x delta_y : Int) (w : World)
    (h : w.map.tiles[xy_idx (w.pos.x + delta_x) (w.pos.y + delta_y)]? = some TileType.Wall) :
    try_move_player delta_x delta_y w = some w := by
  unfold try_move_player
  simp [h]

/-- Witness for C4 at the spec's example: `Floor` at `(5,5)`, `Wall` at
`(5,4)`, delta `(0,-1)`: the world is returned unchanged. -/
theorem c4_witness :
    try_move_player 0 (-1) { map := blockedMap, pos := ⟨5, 5⟩, viewshed := ⟨false⟩ }
      = some { map := blockedMap, pos := ⟨5, 5⟩, viewshed := ⟨false⟩ } :=
  c4_blocked_move_is_no_op 0 (-1) _ (by
    show blockedMap.tiles[xy_idx ((5 : Int) + 0) ((5 : Int) + -1)]? = some TileType.Wall
    have hidx : xy_idx ((5 : Int) + 0) ((5 : Int) + -1) = xy_idx 5 4 := by norm_num
    rw [hidx]
    unfold blockedMap
    apply List.getElem?_set_self
    simp only [allFloorMap, List.length_replicate]
    exact xy_idx_lt (by norm_num) (by norm_num) (by norm_num) (by norm_num))

/-- C5: when the destination tile is not `Wall`, the position becomes
`(pos.x + delta_x, pos.y + delta_y)` clamped to `[0, WIDTH-1] × [0, HEIGHT-1]`
and the viewshed's `dirty` flag is set to `true` (the grid is untouched). -/
theorem c5_accepted_move (delta_x delta_y : Int) (w : World) (t : TileType)
    (hget : w.map.tiles[xy_idx (w.pos.x + delta_x) (w.pos.y + delta_y)]? = some t)
    (ht : t ≠ TileType.Wall) :
    try_move_player delta_x delta_y w =
      some { w with
        pos := { x := min (WIDTH - 1) (max 0 (w.pos.x + delta_x))
                 y := min (HEIGHT - 1) (max 0 (w.pos.y + delta_y)) }
        viewshed := { dirty := true } } := by
  unfold try_move_player
  simp only [hget, ht, ne_eq, not_false_eq_true, if_true]

/-- Witness for C5 at the spec's example: `Floor` everywhere, move from
`(5,5)` by `(1,0)`: position becomes `(6,5)` and `dirty` is set. -/
theorem c5_witness :
    try_move_player 1 0 { map := allFloorMap, pos := ⟨5, 5⟩, viewshed := ⟨false⟩ }
      = some { map := allFloorMap, pos := ⟨6, 5⟩, viewshed := ⟨true⟩ } := by
  have h := c5_accepted_move 1 0
    { map := allFloorMap, pos := ⟨5, 5⟩, viewshed := ⟨false⟩ }
    TileType.Floor (by
      show allFloorMap.tiles[xy_idx ((5 : Int) + 1) ((5 : Int) + 0)]? = some TileType.Floor
      unfold allFloorMap
      apply List.getElem?_replicate_of_lt
      exact xy_idx_lt (by norm_num) (by norm_num) (by norm_num) (by norm_num))
    (by decide)
  rw [h]
  norm_num [WIDTH, HEIGHT]

/-- Counterexample to C2: on the all-`Floor` grid, at `(0,0)` with delta
`(-1,0)` the movement validator does not terminate normally: the computed
destination index `2^64 - 1` is out of bounds and the tile lookup faults
(a Rust index panic, modelled as `none`). -/
theorem c2_counterexample :
    try_move_player (-1) 0 { map := allFloorMap, pos := ⟨0, 0⟩, viewshed := ⟨false⟩ } = none := by
  have hidx : xy_idx ((0 : Int) + -1) ((0 : Int) + 0) = 2 ^ 64 - 1 := by decide
  have h : allFloorMap.tiles[xy_idx ((0 : Int) + -1) ((0 : Int) + 0)]? = none := by
    apply List.getElem?_eq_none
    rw [hidx]
    simp only [allFloorMap, List.length_replicate]
    norm_num
  unfold try_move_player
  simp only [h]

/-- C2 amended: at `(0,0)` with delta `(-1,0)` the destination index is
computed from the unclamped coordinates, evaluates to `2^64 - 1`, and the
tile lookup faults for any grid of the reference size — the clamp protects
only the stored position after an in-bounds, non-`Wall` check, not the
lookup itself. -/
theorem c2_amended_boundary_move_faults (w : World)
    (hpos : w.pos = { x := 0, y := 0 }) (hlen : w.map.tiles.length ≤ 80 * 50) :
    try_move_player (-1) 0 w = none := by
  have h : w.map.tiles[xy_idx (w.pos.x + -1) (w.pos.y + 0)]? = none := by
    apply List.getElem?_eq_none
    rw [hpos]
    have hidx : xy_idx ((0 : Int) + -1) ((0 : Int) + 0) = 2 ^ 64 - 1 := by decide
    simp only [hidx]
    norm_num at hlen ⊢
    omega
  unfold try_move_player
  simp only [h]

/-- Witness for the amended C2: the concrete all-`Floor` world at `(0,0)`. -/
theorem c2_amended_witness :
    try_move_player (-1) 0 { map := allFloorMap, pos := ⟨0, 0⟩, viewshed := ⟨true⟩ } = none :=
  c2_amended_boundary_move_faults _ rfl (by
    show allFloorMap.tiles.length ≤ 80 * 50
    unfold allFloorMap
    rw [List.length_replicate])

/-! ## Corridor carving: clipping behaviour (C3) -/

theorem mem_htIdxs {a b c : Int} {j : Nat} :
    j ∈ htIdxs a b c ↔ j ∈ hLineIdxs a b c ∧ (0 < j ∧ j < 80 * 50) := by
  unfold htIdxs hLineIdxs tunnelGuard
  rw [List.mem_filter]
  simp only [Bool.and_eq_true, decide_eq_true_eq]

theorem mem_vtIdxs {a b c : Int} {j : Nat} :
    j ∈ vtIdxs a b c ↔ j ∈ vLineIdxs a b c ∧ (0 < j ∧ j < 80 * 50) := by
  unfold vtIdxs vLineIdxs tunnelGuard
  rw [List.mem_filter]
  simp only [Bool.and_eq_true, decide_eq_true_eq]

/-- Counterexample to C3: carving a horizontal tunnel from `x=0` to `x=0` at
`y=0` on the all-`Wall` grid computes index `0`, which lies in
`[0, WIDTH*HEIGHT)` and is on the corridor line, yet is NOT written: the
guard `idx > 0` drops index `0` as well. -/
theorem c3_counterexample :
    xy_idx 0 0 ∈ hLineIdxs 0 0 0 ∧ xy_idx 0 0 < 80 * 50 ∧
    (apply_horizontal_tunnel allWallMap 0 0 0).tiles[xy_idx 0 0]? = some TileType.Wall := by
  refine ⟨by decide, by decide, ?_⟩
  rw [apply_horizontal_tunnel_tiles]
  have h : htIdxs 0 0 0 = [] := by decide
  rw [h]
  show allWallMap.tiles[xy_idx 0 0]? = some TileType.Wall
  have h0 : xy_idx 0 0 = 0 := by decide
  rw [h0]
  unfold allWallMap
  exact List.getElem?_replicate_of_lt (by norm_num)

/-- C3 amended: during corridor carving (either tunnel direction, on a grid
of the reference size) a computed index is written to `Floor` iff it lies in
`(0, WIDTH*HEIGHT)` — strictly positive, the guard also drops index `0` —
and every tile whose index is not a guarded on-line index keeps its previous
value; out-of-range indices are silently dropped, never a failure. -/
theorem c3_amended_tunnel_clip (m : Map) (hlen : m.tiles.length = 80 * 50)
    (a b c : Int) (j : Nat) :
    ((apply_horizontal_tunnel m a b c).tiles[j]? =
       if j ∈ hLineIdxs a b c ∧ (0 < j ∧ j < 80 * 50) then some TileType.Floor
       else m.tiles[j]?)
  ∧ ((apply_vertical_tunnel m a b c).tiles[j]? =
       if j ∈ vLineIdxs a b c ∧ (0 < j ∧ j < 80 * 50) then some TileType.Floor
       else m.tiles[j]?) := by
  constructor
  · rw [apply_horizontal_tunnel_tiles, carve_getElem?, hlen]
    by_cases hj : j ∈ hLineIdxs a b c ∧ (0 < j ∧ j < 80 * 50)
    · rw [if_pos ⟨mem_htIdxs.mpr hj, hj.2.2⟩, if_pos hj]
    · rw [if_neg (fun hc => hj (mem_htIdxs.mp hc.1)), if_neg hj]
  · rw [apply_vertical_tunnel_tiles, carve_getElem?, hlen]
    by_cases hj : j ∈ vLineIdxs a b c ∧ (0 < j ∧ j < 80 * 50)
    · rw [if_pos ⟨mem_vtIdxs.mpr hj, hj.2.2⟩, if_pos hj]
    · rw [if_neg (fun hc => hj (mem_vtIdxs.mp hc.1)), if_neg hj]

/-- Witness for the amended C3: on the all-`Wall` grid, the tunnel from
`(1,1)` to `(3,1)` writes `Floor` at `xy_idx 2 1 = 82 ∈ (0, 4000)`. -/
theorem c3_amended_witness :
    (apply_horizontal_tunnel allWallMap 1 3 1).tiles[xy_idx 2 1]? = some TileType.Floor := by
  have h := (c3_amended_tunnel_clip allWallMap (by
    unfold allWallMap
    rw [List.length_replicate]) 1 3 1 (xy_idx 2 1)).1
  rw [h, if_pos]
  exact ⟨by decide, by decide, by decide⟩

theorem adjacent_symm {p q : Int × Int} (h : adjacent p q) : adjacent q p := by
  unfold adjacent at h ⊢
  omega

theorem adjacent_right (x y : Int) : adjacent (x, y) (x + 1, y) := by
  unfold adjacent
  omega

theorem adjacent_up (x y : Int) : adjacent (x, y) (x, y + 1) := by
  unfold adjacent
  omega

theorem FloorPath.floor_src {ts : List TileType} {p q : Int × Int}
    (h : FloorPath ts p q) : isFloorT ts p := by
  cases h with
  | refl _ hf => exact hf
  | step _ hf _ => exact hf

theorem FloorPath.trans {ts : List TileType} {p q r : Int × Int}
    (h1 : FloorPath ts p q) (h2 : FloorPath ts q r) : FloorPath ts p r := by
  induction h1 with
  | refl _ _ => exact h2
  | step hadj hf _ ih => exact FloorPath.step hadj hf (ih h2)

theorem FloorPath.snoc {ts : List TileType} {p q r : Int × Int}
    (h : FloorPath ts p q) (hadj : adjacent q r) (hf : isFloorT ts r) :
    FloorPath ts p r := by
  induction h with
  | refl s hs => exact FloorPath.step hadj hs (FloorPath.refl r hf)
  | step hadj' hf' _ ih => exact FloorPath.step hadj' hf' (ih hadj)

theorem FloorPath.symm {ts : List TileType} {p q : Int × Int}
    (h : FloorPath ts p q) : FloorPath ts q p := by
  induction h with
  | refl s hs => exact FloorPath.refl s hs
  | step hadj hf _ ih => exact ih.snoc (adjacent_symm hadj) hf

theorem FloorPath.mono {ts ts' : List TileType} {p q : Int × Int}
    (hsub : ∀ j : Nat, ts[j]? = some TileType.Floor → ts'[j]? = some TileType.Floor)
    (h : FloorPath ts p q) : FloorPath ts' p q := by
  induction h with
  | refl s hs => exact FloorPath.refl s (hsub _ hs)
  | step hadj hf _ ih => exact FloorPath.step hadj (hsub _ hf) ih

theorem floorPath_horiz_aux (ts : List TileType) (y a : Int) :
    ∀ n : Nat, (∀ x : Int, a ≤ x → x ≤ a + n → isFloorT ts (x, y)) →
      FloorPath ts (a, y) (a + n, y) := by
  intro n
  induction n with
  | zero =>
    intro h
    simpa using FloorPath.refl (a, y) (h a le_rfl (by omega))
  | succ k ih =>
    intro h
    have hp := ih (fun x hx1 hx2 => h x hx1 (by push_cast at hx2 ⊢; omega))
    have hext : a + ((k + 1 : Nat) : Int) = (a + (k : Int)) + 1 := by push_cast; ring
    rw [hext]
    exact hp.snoc (adjacent_right _ _) (h _ (by omega) (by push_cast; omega))

theorem floorPath_vert_aux (ts : List TileType) (x a : Int) :
    ∀ n : Nat, (∀ y : Int, a ≤ y → y ≤ a + n → isFloorT ts (x, y)) →
      FloorPath ts (x, a) (x, a + n) := by
  intro n
  induction n with
  | zero =>
    intro h
    simpa using FloorPath.refl (x, a) (h a le_rfl (by omega))
  | succ k ih =>
    intro h
    have hp := ih (fun y hy1 hy2 => h y hy1 (by push_cast at hy2 ⊢; omega))
    have hext : a + ((k + 1 : Nat) : Int) = (a + (k : Int)) + 1 := by push_cast; ring
    rw [hext]
    exact hp.snoc (adjacent_up _ _) (h _ (by omega) (by push_cast; omega))

theorem floorPath_horiz (ts : List TileType) (a b y : Int)
    (h : ∀ x : Int, min a b ≤ x → x ≤ max a b → isFloorT ts (x, y)) :
    FloorPath ts (a, y) (b, y) := by
  rcases le_total a b with hab | hba
  · have hp := floorPath_horiz_aux ts y a (b - a).toNat
      (fun x hx1 hx2 => h x (by omega) (by omega))
    rwa [show a + (((b - a).toNat : Nat) : Int) = b by omega] at hp
  · have hp := floorPath_horiz_aux ts y b (a - b).toNat
      (fun x hx1 hx2 => h x (by omega) (by omega))
    rw [show b + (((a - b).toNat : Nat) : Int) = a by omega] at hp
    exact hp.symm

theorem floorPath_vert (ts : List TileType) (a b x : Int)
    (h : ∀ y : Int, min a b ≤ y → y ≤ max a b → isFloorT ts (x, y)) :
    FloorPath ts (x, a) (x, b) := by
  rcases le_total a b with hab | hba
  · have hp := floorPath_vert_aux ts x a (b - a).toNat
      (fun y hy1 hy2 => h y (by omega) (by omega))
    rwa [show a + (((b - a).toNat : Nat) : Int) = b by omega] at hp
  · have hp := floorPath_vert_aux ts x b (a - b).toNat
      (fun y hy1 hy2 => h y (by omega) (by omega))
    rw [show b + (((a - b).toNat : Nat) : Int) = a by omega] at hp
    exact hp.symm

/-! ## Bounds of the modelled rng draws -/

theorem rngRange_mem (raw : Nat) {lo hi : Int} (h : lo < hi) :
    lo ≤ rngRange raw lo hi ∧ rngRange raw lo hi < hi := by
  unfold rngRange
  have hpos : 0 < (hi - lo).toNat := by omega
  have := Nat.mod_lt raw hpos
  omega

theorem rollDice_mem (raw : Nat) {n : Int} (h : 0 < n) :
    1 ≤ rollDice raw n ∧ rollDice raw n ≤ n := by
  unfold rollDice
  have hpos : 0 < n.toNat := by omega
  have := Nat.mod_lt raw hpos
  omega

/-! ## Geometry of accepted rooms -/

theorem center_bounds {r : Rect} (h : WellPlaced r) :
    3 ≤ r.center.1 ∧ r.center.1 ≤ 75 ∧ 3 ≤ r.center.2 ∧ r.center.2 ≤ 45 := by
  unfold WellPlaced at h
  unfold Rect.center
  dsimp only
  omega

theorem intersect_symm (a b : Rect) : a.intersect b = b.intersect a := by
  unfold Rect.intersect
  rw [Bool.eq_iff_iff]
  simp only [Bool.and_eq_true, decide_eq_true_eq, ge_iff_le]
  omega

theorem mem_roomIdxs {room : Rect} {j : Nat} :
    j ∈ roomIdxs room ↔ ∃ x y : Int, room.x1 + 1 ≤ x ∧ x ≤ room.x2 ∧
      room.y1 + 1 ≤ y ∧ y ≤ room.y2 ∧ j = xy_idx x y := by
  unfold roomIdxs
  simp only [List.mem_flatMap, List.mem_map, mem_intRangeIncl]
  constructor
  · rintro ⟨y, ⟨hy1, hy2⟩, x, ⟨hx1, hx2⟩, rfl⟩
    exact ⟨x, y, hx1, hx2, hy1, hy2, rfl⟩
  · rintro ⟨x, y, hx1, hx2, hy1, hy2, rfl⟩
    exact ⟨y, ⟨hy1, hy2⟩, x, ⟨hx1, hx2⟩, rfl⟩

theorem mem_hLineIdxs {a b c : Int} {j : Nat} :
    j ∈ hLineIdxs a b c ↔ ∃ x : Int, min a b ≤ x ∧ x ≤ max a b ∧ j = xy_idx x c := by
  unfold hLineIdxs
  simp only [List.mem_map, mem_intRangeIncl]
  constructor
  · rintro ⟨x, ⟨h1, h2⟩, rfl⟩
    exact ⟨x, h1, h2, rfl⟩
  · rintro ⟨x, h1, h2, rfl⟩
    exact ⟨x, ⟨h1, h2⟩, rfl⟩

theorem mem_vLineIdxs {a b c : Int} {j : Nat} :
    j ∈ vLineIdxs a b c ↔ ∃ y : Int, min a b ≤ y ∧ y ≤ max a b ∧ j = xy_idx c y := by
  unfold vLineIdxs
  simp only [List.mem_map, mem_intRangeIncl]
  constructor
  · rintro ⟨y, ⟨h1, h2⟩, rfl⟩
    exact ⟨y, h1, h2, rfl⟩
  · rintro ⟨y, h1, h2, rfl⟩
    exact ⟨y, ⟨h1, h2⟩, rfl⟩

/-! ## Pointwise floor monotonicity of the carving operations -/

theorem floorMono_rfl (ts : List TileType) : floorMono ts ts := fun _ h => h

theorem floorMono_trans {t1 t2 t3 : List TileType}
    (h1 : floorMono t1 t2) (h2 : floorMono t2 t3) : floorMono t1 t3 :=
  fun j h => h2 j (h1 j h)

theorem floorMono_carve (ts : List TileType) (idxs : List Nat) :
    floorMono ts (carve ts idxs) := fun _ h => carve_floor_mono idxs h

theorem floorMono_apply_room (m : Map) (room : Rect) :
    floorMono m.tiles (apply_room_to_map m room).tiles := by
  rw [apply_room_to_map_tiles]
  exact floorMono_carve _ _

theorem floorMono_ht (m : Map) (x1 x2 y : Int) :
    floorMono m.tiles (apply_horizontal_tunnel m x1 x2 y).tiles := by
  rw [apply_horizontal_tunnel_tiles]
  exact floorMono_carve _ _

theorem floorMono_vt (m : Map) (y1 y2 x : Int) :
    floorMono m.tiles (apply_vertical_tunnel m y1 y2 x).tiles := by
  rw [apply_vertical_tunnel_tiles]
  exact floorMono_carve _ _

theorem floorMono_connect (coin : Nat) (m : Map) (a b : Rect) :
    floorMono m.tiles (connect_room_to_previous_room coin m a b).tiles := by
  unfold connect_room_to_previous_room
  split
  · exact floorMono_trans (floorMono_ht m _ _ _) (floorMono_vt _ _ _ _)
  · exact floorMono_trans (floorMono_ht m _ _ _) (floorMono_vt _ _ _ _)

/-! ## Lengths through the carving operations -/

theorem apply_room_length (m : Map) (room : Rect) :
    (apply_room_to_map m room).tiles.length = m.tiles.length := by
  rw [apply_room_to_map_tiles, carve_length]

theorem ht_length (m : Map) (x1 x2 y : Int) :
    (apply_horizontal_tunnel m x1 x2 y).tiles.length = m.tiles.length := by
  rw [apply_horizontal_tunnel_tiles, carve_length]

theorem vt_length (m : Map) (y1 y2 x : Int) :
    (apply_vertical_tunnel m y1 y2 x).tiles.length = m.tiles.length := by
  rw [apply_vertical_tunnel_tiles, carve_length]

theorem connect_length (coin : Nat) (m : Map) (a b : Rect) :
    (connect_room_to_previous_room coin m a b).tiles.length = m.tiles.length := by
  unfold connect_room_to_previous_room
  split
  · rw [vt_length, ht_length]
  · rw [vt_length, ht_length]

theorem connect_revealed (coin : Nat) (m : Map) (a b : Rect) :
    (connect_room_to_previous_room coin m a b).revealed_tiles = m.revealed_tiles := by
  unfold connect_room_to_previous_room
  split <;> rfl

theorem connect_visible (coin : Nat) (m : Map) (a b : Rect) :
    (connect_room_to_previous_room coin m a b).visible_tiles = m.visible_tiles := by
  unfold connect_room_to_previous_room
  split <;> rfl

/-! ## What each operation writes -/

theorem isFloorT_apply_room (m : Map) (room : Rect) (hlen : m.tiles.length = 80 * 50)
    {x y : Int} (hxr : 1 ≤ x) (hxr' : x ≤ 78) (hyr : 1 ≤ y) (hyr' : y ≤ 48)
    (hx1 : room.x1 + 1 ≤ x) (hx2 : x ≤ room.x2) (hy1 : room.y1 + 1 ≤ y) (hy2 : y ≤ room.y2) :
    isFloorT (apply_room_to_map m room).tiles (x, y) := by
  rw [apply_room_to_map_tiles]
  unfold isFloorT
  dsimp only
  rw [carve_getElem?, if_pos]
  refine ⟨mem_roomIdxs.mpr ⟨x, y, hx1, hx2, hy1, hy2, rfl⟩, ?_⟩
  rw [hlen]
  exact xy_idx_lt (by omega) (by omega) (by omega) (by omega)

theorem isFloorT_ht (m : Map) (hlen : m.tiles.length = 80 * 50) {x1 x2 y x : Int}
    (hx1 : min x1 x2 ≤ x) (hx2 : x ≤ max x1 x2)
    (hxr : 1 ≤ x) (hxr' : x ≤ 78) (hyr : 1 ≤ y) (hyr' : y ≤ 48) :
    isFloorT (apply_horizontal_tunnel m x1 x2 y).tiles (x, y) := by
  rw [apply_horizontal_tunnel_tiles]
  unfold isFloorT
  dsimp only
  have hj : xy_idx x y = y.toNat * 80 + x.toNat :=
    xy_idx_eq (by omega) (by omega) (by omega) (by omega)
  rw [carve_getElem?, if_pos]
  refine ⟨mem_htIdxs.mpr ⟨mem_hLineIdxs.mpr ⟨x, hx1, hx2, rfl⟩, ?_, ?_⟩, ?_⟩
  · omega
  · omega
  · rw [hlen]; omega

theorem isFloorT_vt (m : Map) (hlen : m.tiles.length = 80 * 50) {y1 y2 x y : Int}
    (hy1 : min y1 y2 ≤ y) (hy2 : y ≤ max y1 y2)
    (hxr : 1 ≤ x) (hxr' : x ≤ 78) (hyr : 1 ≤ y) (hyr' : y ≤ 48) :
    isFloorT (apply_vertical_tunnel m y1 y2 x).tiles (x, y) := by
  rw [apply_vertical_tunnel_tiles]
  unfold isFloorT
  dsimp only
  have hj : xy_idx x y = y.toNat * 80 + x.toNat :=
    xy_idx_eq (by omega) (by omega) (by omega) (by omega)
  rw [carve_getElem?, if_pos]
  refine ⟨mem_vtIdxs.mpr ⟨mem_vLineIdxs.mpr ⟨y, hy1, hy2, rfl⟩, ?_, ?_⟩, ?_⟩
  · omega
  · omega
  · rw [hlen]; omega

/-! ## Preservation of the floors-are-interior invariant -/

theorem floorsInterior_apply_room (m : Map) (room : Rect) (hwp : WellPlaced room)
    (hfi : ∀ j : Nat, m.tiles[j]? = some TileType.Floor → InteriorIdx j) :
    ∀ j : Nat, (apply_room_to_map m room).tiles[j]? = some TileType.Floor → InteriorIdx j := by
  intro j h
  rw [apply_room_to_map_tiles, carve_getElem?] at h
  by_cases hc : j ∈ roomIdxs room ∧ j < m.tiles.length
  · obtain ⟨x, y, hx1, hx2, hy1, hy2, rfl⟩ := mem_roomIdxs.mp hc.1
    unfold WellPlaced at hwp
    exact ⟨x, y, by omega, by omega, by omega, by omega, rfl⟩
  · rw [if_neg hc] at h
    exact hfi j h

theorem floorsInterior_ht (m : Map) {x1 x2 y : Int}
    (hx1 : 1 ≤ x1) (hx1' : x1 ≤ 78) (hx2 : 1 ≤ x2) (hx2' : x2 ≤ 78)
    (hy : 1 ≤ y) (hy' : y ≤ 48)
    (hfi : ∀ j : Nat, m.tiles[j]? = some TileType.Floor → InteriorIdx j) :
    ∀ j : Nat, (apply_horizontal_tunnel m x1 x2 y).tiles[j]? = some TileType.Floor →
      InteriorIdx j := by
  intro j h
  rw [apply_horizontal_tunnel_tiles, carve_getElem?] at h
  by_cases hc : j ∈ htIdxs x1 x2 y ∧ j < m.tiles.length
  · obtain ⟨hline, _, _⟩ := mem_htIdxs.mp hc.1
    obtain ⟨x, ha, hb, rfl⟩ := mem_hLineIdxs.mp hline
    exact ⟨x, y, by omega, by omega, by omega, by omega, rfl⟩
  · rw [if_neg hc] at h
    exact hfi j h

theorem floorsInterior_vt (m : Map) {y1 y2 x : Int}
    (hy1 : 1 ≤ y1) (hy1' : y1 ≤ 48) (hy2 : 1 ≤ y2) (hy2' : y2 ≤ 48)
    (hx : 1 ≤ x) (hx' : x ≤ 78)
    (hfi : ∀ j : Nat, m.tiles[j]? = some TileType.Floor → InteriorIdx j) :
    ∀ j : Nat, (apply_vertical_tunnel m y1 y2 x).tiles[j]? = some TileType.Floor →
      InteriorIdx j := by
  intro j h
  rw [apply_vertical_tunnel_tiles, carve_getElem?] at h
  by_cases hc : j ∈ vtIdxs y1 y2 x ∧ j < m.tiles.length
  · obtain ⟨hline, _, _⟩ := mem_vtIdxs.mp hc.1
    obtain ⟨y, ha, hb, rfl⟩ := mem_vLineIdxs.mp hline
    exact ⟨x, y, by omega, by omega, by omega, by omega, rfl⟩
  · rw [if_neg hc] at h
    exact hfi j h

theorem isFloorT_mono {ts ts' : List TileType} (h : floorMono ts ts') {p : Int × Int}
    (hf : isFloorT ts p) : isFloorT ts' p := h _ hf

/-- The corridor carved by `connect_room_to_previous_room` yields a 4-connected
`Floor` path from the new room's center to the previous room's center,
whichever dogleg the coin picks. -/
theorem connect_path (coin : Nat) (m : Map) (new_room prev_room : Rect)
    (hlen : m.tiles.length = 80 * 50)
    (hnew : WellPlaced new_room) (hprev : WellPlaced prev_room) :
    FloorPath (connect_room_to_previous_room coin m new_room prev_room).tiles
      new_room.center prev_room.center := by
  obtain ⟨hcx1, hcx2, hcy1, hcy2⟩ := center_bounds hnew
  obtain ⟨hpx1, hpx2, hpy1, hpy2⟩ := center_bounds hprev
  unfold connect_room_to_previous_room
  dsimp only
  split
  · -- horizontal at the previous room's center-y, then vertical at the new room's center-x
    have hlen1 : (apply_horizontal_tunnel m prev_room.center.1 new_room.center.1
        prev_room.center.2).tiles.length = 80 * 50 := by rw [ht_length, hlen]
    have hvert : FloorPath (apply_vertical_tunnel
        (apply_horizontal_tunnel m prev_room.center.1 new_room.center.1 prev_room.center.2)
        prev_room.center.2 new_room.center.2 new_room.center.1).tiles
        (new_room.center.1, new_room.center.2) (new_room.center.1, prev_room.center.2) :=
      floorPath_vert _ _ _ _ (fun y h1 h2 =>
        isFloorT_vt _ hlen1 (by omega) (by omega) (by omega) (by omega) (by omega) (by omega))
    have hhorz : FloorPath (apply_vertical_tunnel
        (apply_horizontal_tunnel m prev_room.center.1 new_room.center.1 prev_room.center.2)
        prev_room.center.2 new_room.center.2 new_room.center.1).tiles
        (new_room.center.1, prev_room.center.2) (prev_room.center.1, prev_room.center.2) :=
      floorPath_horiz _ _ _ _ (fun x h1 h2 =>
        isFloorT_mono (floorMono_vt _ _ _ _)
          (isFloorT_ht m hlen (by omega) (by omega) (by omega) (by omega) (by omega) (by omega)))
    exact hvert.trans hhorz
  · -- horizontal at the new room's center-y, then vertical at the previous room's center-x
    have hlen1 : (apply_horizontal_tunnel m prev_room.center.1 new_room.center.1
        new_room.center.2).tiles.length = 80 * 50 := by rw [ht_length, hlen]
    have hhorz : FloorPath (apply_vertical_tunnel
        (apply_horizontal_tunnel m prev_room.center.1 new_room.center.1 new_room.center.2)
        prev_room.center.2 new_room.center.2 prev_room.center.1).tiles
        (new_room.center.1, new_room.center.2) (prev_room.center.1, new_room.center.2) :=
      floorPath_horiz _ _ _ _ (fun x h1 h2 =>
        isFloorT_mono (floorMono_vt _ _ _ _)
          (isFloorT_ht m hlen (by omega) (by omega) (by omega) (by omega) (by omega) (by omega)))
    have hvert : FloorPath (apply_vertical_tunnel
        (apply_horizontal_tunnel m prev_room.center.1 new_room.center.1 new_room.center.2)
        prev_room.center.2 new_room.center.2 prev_room.center.1).tiles
        (prev_room.center.1, new_room.center.2) (prev_room.center.1, prev_room.center.2) :=
      floorPath_vert _ _ _ _ (fun y h1 h2 =>
        isFloorT_vt _ hlen1 (by omega) (by omega) (by omega) (by omega) (by omega) (by omega))
    exact hhorz.trans hvert

theorem floorsInterior_connect (coin : Nat) (m : Map) (new_room prev_room : Rect)
    (hnew : WellPlaced new_room) (hprev : WellPlaced prev_room)
    (hfi : ∀ j : Nat, m.tiles[j]? = some TileType.Floor → InteriorIdx j) :
    ∀ j : Nat, (connect_room_to_previous_room coin m new_room prev_room).tiles[j]?
      = some TileType.Floor → InteriorIdx j := by
  obtain ⟨hcx1, hcx2, hcy1, hcy2⟩ := center_bounds hnew
  obtain ⟨hpx1, hpx2, hpy1, hpy2⟩ := center_bounds hprev
  unfold connect_room_to_previous_room
  dsimp only
  split
  · exact floorsInterior_vt _ (by omega) (by omega) (by omega) (by omega) (by omega) (by omega)
      (floorsInterior_ht _ (by omega) (by omega) (by omega) (by omega) (by omega) (by omega) hfi)
  · exact floorsInterior_vt _ (by omega) (by omega) (by omega) (by omega) (by omega) (by omega)
      (floorsInterior_ht _ (by omega) (by omega) (by omega) (by omega) (by omega) (by omega) hfi)

/-! ## The generation loop invariant -/

/-- Accepting a well-placed, disjoint room (with its corridor when a previous
room exists) preserves the loop invariant. -/
theorem genInv_accept (s : Map × List Rect) (hinv : GenInv s) (new_room : Rect)
    (hwp : WellPlaced new_room)
    (hdisj : ∀ o ∈ s.2, new_room.intersect o = false) (coin : Nat) :
    GenInv
      ((match s.2.getLast? with
        | some prev_room =>
            connect_room_to_previous_room coin (apply_room_to_map s.1 new_room)
              new_room prev_room
        | none => apply_room_to_map s.1 new_room),
       s.2 ++ [new_room]) := by
  obtain ⟨m, rooms⟩ := s
  dsimp only at hdisj ⊢
  rcases hlast : rooms.getLast? with _ | prev_room
  · -- no previous room: the room list is empty and no corridor is carved
    have hnil : rooms = [] := List.getLast?_eq_none_iff.mp hlast
    subst hnil
    refine ⟨?_, ?_, ?_, ?_, ?_, ?_, ?_, ?_⟩
    · rw [apply_room_length, hinv.lenTiles]
    · exact hinv.lenRev
    · exact hinv.lenVis
    · simp
    · intro r hr
      rw [List.nil_append, List.mem_singleton] at hr
      subst hr
      exact hwp
    · intro r hr x y hx1 hx2 hy1 hy2
      rw [List.nil_append, List.mem_singleton] at hr
      subst hr
      obtain ⟨h1, h2, h3, h4, h5, h6⟩ := hwp
      exact isFloorT_apply_room m r hinv.lenTiles (by omega) (by omega) (by omega) (by omega)
        hx1 hx2 hy1 hy2
    · intro i a b ha hb
      rw [List.nil_append] at hb
      rw [List.getElem?_cons_succ] at hb
      exact absurd hb (by simp)
    · exact floorsInterior_apply_room m new_room hwp hinv.floorsInterior
  · -- a previous room exists: the corridor to it is carved as well
    have hprevmem : prev_room ∈ rooms := by
      obtain ⟨ys, hys⟩ := List.getLast?_eq_some_iff.mp hlast
      rw [hys]
      exact List.mem_append_right ys (List.mem_singleton.mpr rfl)
    have hwpprev := hinv.placed prev_room hprevmem
    have hlen1 : (apply_room_to_map m new_room).tiles.length = 80 * 50 := by
      rw [apply_room_length, hinv.lenTiles]
    have hmono : floorMono m.tiles
        (connect_room_to_previous_room coin (apply_room_to_map m new_room)
          new_room prev_room).tiles :=
      floorMono_trans (floorMono_apply_room m new_room)
        (floorMono_connect coin _ new_room prev_room)
    refine ⟨?_, ?_, ?_, ?_, ?_, ?_, ?_, ?_⟩
    · rw [connect_length, apply_room_length, hinv.lenTiles]
    · rw [connect_revealed]
      exact hinv.lenRev
    · rw [connect_visible]
      exact hinv.lenVis
    · refine List.pairwise_append.mpr ⟨hinv.pw, List.pairwise_singleton _ new_room, ?_⟩
      intro a ha b hb
      rw [List.mem_singleton] at hb
      subst hb
      rw [intersect_symm]
      exact hdisj a ha
    · intro r hr
      rcases List.mem_append.mp hr with h | h
      · exact hinv.placed r h
      · rw [List.mem_singleton] at h
        subst h
        exact hwp
    · intro r hr x y hx1 hx2 hy1 hy2
      rcases List.mem_append.mp hr with h | h
      · exact isFloorT_mono hmono (hinv.carved r h x y hx1 hx2 hy1 hy2)
      · rw [List.mem_singleton] at h
        obtain ⟨h1, h2, h3, h4, h5, h6⟩ := hwp
        subst h
        exact isFloorT_mono (floorMono_connect coin _ r prev_room)
          (isFloorT_apply_room m r hinv.lenTiles (by omega) (by omega) (by omega) (by omega)
            hx1 hx2 hy1 hy2)
    · intro i a b ha hb
      have hbl := (List.getElem?_eq_some_iff.mp hb).1
      rw [List.length_append, List.length_cons, List.length_nil] at hbl
      by_cases hi1 : i + 1 < rooms.length
      · rw [List.getElem?_append_left (by omega)] at ha
        rw [List.getElem?_append_left hi1] at hb
        exact (hinv.chain i a b ha hb).mono hmono
      · have hieq : i + 1 = rooms.length := by omega
        have hb' : (rooms ++ [new_room])[i + 1]? = some new_room := by
          rw [hieq]
          exact List.getElem?_concat_length rooms new_room
        have hbeq : b = new_room := by
          rw [hb] at hb'
          exact Option.some_inj.mp hb'
        have ha' : rooms[i]? = some a := by
          rw [List.getElem?_append_left (by omega)] at ha
          exact ha
        have hap : rooms[i]? = some prev_room := by
          rw [show i = rooms.length - 1 by omega, ← List.getLast?_eq_getElem?, hlast]
        have haeq : a = prev_room := by
          rw [ha'] at hap
          exact Option.some_inj.mp hap
        rw [hbeq, haeq]
        exact connect_path coin (apply_room_to_map m new_room) new_room prev_room
          hlen1 hwp hwpprev
    · exact floorsInterior_connect coin _ new_room prev_room hwp hwpprev
        (floorsInterior_apply_room m new_room hwp hinv.floorsInterior)

/-- One loop iteration of `add_rooms_and_corridors` preserves the invariant. -/
theorem genInv_gen_iter (rng rng2 : Nat → Nat) (s : Map × List Rect) (i : Nat)
    (hinv : GenInv s) : GenInv (gen_iter rng rng2 s i) := by
  unfold gen_iter
  dsimp only
  have hW : WIDTH = 80 := rfl
  have hH : HEIGHT = 50 := rfl
  have hw := rngRange_mem (rng (4 * i)) (show (6 : Int) < 10 by norm_num)
  have hh := rngRange_mem (rng (4 * i + 1)) (show (6 : Int) < 10 by norm_num)
  have hx := rollDice_mem (rng (4 * i + 2))
    (n := WIDTH - rngRange (rng (4 * i)) 6 10 - 1) (by omega)
  have hy := rollDice_mem (rng (4 * i + 3))
    (n := HEIGHT - rngRange (rng (4 * i + 1)) 6 10 - 1) (by omega)
  split
  · next hok =>
    refine genInv_accept s hinv _ ?_ ?_ (rng2 i)
    · unfold WellPlaced Rect.new
      dsimp only
      omega
    · intro o ho
      have := List.all_eq_true.mp hok o ho
      simpa using this
  · exact hinv

/-- The invariant holds for every fold of loop iterations. -/
theorem genInv_foldl (rng rng2 : Nat → Nat) (l : List Nat) (s : Map × List Rect)
    (hinv : GenInv s) : GenInv (l.foldl (gen_iter rng rng2) s) := by
  induction l generalizing s with
  | nil => exact hinv
  | cons a rest ih => exact ih _ (genInv_gen_iter rng rng2 s a hinv)

/-- The invariant holds at loop entry. -/
theorem genInv_initial : GenInv (initialMap, []) := by
  refine ⟨?_, ?_, ?_, ?_, ?_, ?_, ?_, ?_⟩
  · exact List.length_replicate _ _
  · exact List.length_replicate _ _
  · exact List.length_replicate _ _
  · exact List.Pairwise.nil
  · intro r hr
    exact absurd hr (List.not_mem_nil r)
  · intro r hr
    exact absurd hr (List.not_mem_nil r)
  · intro i a b ha hb
    rw [List.getElem?_nil] at ha
    exact absurd ha (by simp)
  · intro j h
    unfold initialMap at h
    dsimp only at h
    rw [List.getElem?_replicate] at h
    split at h
    · exact absurd (Option.some_inj.mp h) (by intro hc; cases hc)
    · exact absurd h (by intro hc; cases hc)

/-- The generated state satisfies the invariant. -/
theorem genInv_generated (rng rng2 : Nat → Nat) :
    GenInv (genFold rng rng2 initialMap) :=
  genInv_foldl rng rng2 _ _ genInv_initial

theorem map_with_rooms_tiles (p : Map × List Rect) :
    ({ p.1 with rooms := p.2 } : Map).tiles = p.1.tiles := rfl

theorem map_with_rooms_rooms (p : Map × List Rect) :
    ({ p.1 with rooms := p.2 } : Map).rooms = p.2 := rfl

theorem map_with_rooms_revealed (p : Map × List Rect) :
    ({ p.1 with rooms := p.2 } : Map).revealed_tiles = p.1.revealed_tiles := rfl

theorem map_with_rooms_visible (p : Map × List Rect) :
    ({ p.1 with rooms := p.2 } : Map).visible_tiles = p.1.visible_tiles := rfl

theorem new_map_tiles_eq (rng rng2 : Nat → Nat) :
    (new_map_rooms_and_corridors rng rng2).tiles
      = (genFold rng rng2 initialMap).1.tiles := by
  unfold new_map_rooms_and_corridors add_rooms_and_corridors
  exact map_with_rooms_tiles (genFold rng rng2 initialMap)

theorem new_map_rooms_eq (rng rng2 : Nat → Nat) :
    (new_map_rooms_and_corridors rng rng2).rooms
      = (genFold rng rng2 initialMap).2 := by
  unfold new_map_rooms_and_corridors add_rooms_and_corridors
  exact map_with_rooms_rooms (genFold rng rng2 initialMap)

theorem new_map_revealed_eq (rng rng2 : Nat → Nat) :
    (new_map_rooms_and_corridors rng rng2).revealed_tiles
      = (genFold rng rng2 initialMap).1.revealed_tiles := by
  unfold new_map_rooms_and_corridors add_rooms_and_corridors
  exact map_with_rooms_revealed (genFold rng rng2 initialMap)

theorem new_map_visible_eq (rng rng2 : Nat → Nat) :
    (new_map_rooms_and_corridors rng rng2).visible_tiles
      = (genFold rng rng2 initialMap).1.visible_tiles := by
  unfold new_map_rooms_and_corridors add_rooms_and_corridors
  exact map_with_rooms_visible (genFold rng rng2 initialMap)

/-- Each loop iteration appends at most one accepted room. -/
theorem gen_iter_rooms_length (rng rng2 : Nat → Nat) (s : Map × List Rect) (i : Nat) :
    (gen_iter rng rng2 s i).2.length ≤ s.2.length + 1 := by
  unfold gen_iter
  dsimp only
  split
  · simp
  · omega

theorem foldl_rooms_length (rng rng2 : Nat → Nat) (l : List Nat) (s : Map × List Rect) :
    (l.foldl (gen_iter rng rng2) s).2.length ≤ s.2.length + l.length := by
  induction l generalizing s with
  | nil => simp
  | cons a rest ih =>
    have h1 := gen_iter_rooms_length rng rng2 s a
    have h2 := ih (gen_iter rng rng2 s a)
    simp only [List.foldl_cons, List.length_cons]
    omega

/-! ## The invariant transferred to the generated map's own fields -/

theorem new_map_len_tiles (rng rng2 : Nat → Nat) :
    (new_map_rooms_and_corridors rng rng2).tiles.length = 80 * 50 := by
  rw [new_map_tiles_eq]
  exact (genInv_generated rng rng2).lenTiles

theorem new_map_len_revealed (rng rng2 : Nat → Nat) :
    (new_map_rooms_and_corridors rng rng2).revealed_tiles.length = 80 * 50 := by
  rw [new_map_revealed_eq]
  exact (genInv_generated rng rng2).lenRev

theorem new_map_len_visible (rng rng2 : Nat → Nat) :
    (new_map_rooms_and_corridors rng rng2).visible_tiles.length = 80 * 50 := by
  rw [new_map_visible_eq]
  exact (genInv_generated rng rng2).lenVis

theorem new_map_pairwise (rng rng2 : Nat → Nat) :
    (new_map_rooms_and_corridors rng rng2).rooms.Pairwise
      (fun a b => a.intersect b = false) := by
  rw [new_map_rooms_eq]
  exact (genInv_generated rng rng2).pw

theorem new_map_carved (rng rng2 : Nat → Nat) :
    ∀ r ∈ (new_map_rooms_and_corridors rng rng2).rooms, ∀ x y : Int,
      r.x1 + 1 ≤ x → x ≤ r.x2 → r.y1 + 1 ≤ y → y ≤ r.y2 →
      isFloorT (new_map_rooms_and_corridors rng rng2).tiles (x, y) := by
  rw [new_map_rooms_eq]
  intro r hr x y hx1 hx2 hy1 hy2
  show isFloorT (new_map_rooms_and_corridors rng rng2).tiles (x, y)
  rw [new_map_tiles_eq]
  exact (genInv_generated rng rng2).carved r hr x y hx1 hx2 hy1 hy2

theorem new_map_chain (rng rng2 : Nat → Nat) :
    ∀ (i : Nat) (a b : Rect), (new_map_rooms_and_corridors rng rng2).rooms[i]? = some a →
      (new_map_rooms_and_corridors rng rng2).rooms[i + 1]? = some b →
      FloorPath (new_map_rooms_and_corridors rng rng2).tiles b.center a.center := by
  intro i a b ha hb
  rw [new_map_rooms_eq] at ha hb
  show FloorPath (new_map_rooms_and_corridors rng rng2).tiles b.center a.center
  rw [new_map_tiles_eq]
  exact (genInv_generated rng rng2).chain i a b ha hb

theorem new_map_floorsInterior (rng rng2 : Nat → Nat) :
    ∀ j : Nat, (new_map_rooms_and_corridors rng rng2).tiles[j]? = some TileType.Floor →
      InteriorIdx j := by
  intro j hj
  rw [new_map_tiles_eq] at hj
  exact (genInv_generated rng rng2).floorsInterior j hj

/-! ## The claims about generation -/

/-- C1: map generation is deterministic in the random generator state — with
the rng draws made explicit (the loop generator's stream and the per-call
streams of the fresh generators created inside
`connect_room_to_previous_room`), two runs over identical streams produce
bit-identical maps: same tiles, same rooms, same array lengths. -/
theorem c1_generation_deterministic (rng rng2 rng' rng2' : Nat → Nat)
    (h1 : ∀ k, rng k = rng' k) (h2 : ∀ k, rng2 k = rng2' k) :
    new_map_rooms_and_corridors rng rng2 = new_map_rooms_and_corridors rng' rng2' ∧
    (new_map_rooms_and_corridors rng rng2).tiles
      = (new_map_rooms_and_corridors rng' rng2').tiles ∧
    (new_map_rooms_and_corridors rng rng2).rooms
      = (new_map_rooms_and_corridors rng' rng2').rooms ∧
    (new_map_rooms_and_corridors rng rng2).tiles.length
      = (new_map_rooms_and_corridors rng' rng2').tiles.length := by
  have hr : rng = rng' := funext h1
  have hr2 : rng2 = rng2' := funext h2
  subst hr
  subst hr2
  exact ⟨rfl, rfl, rfl, rfl⟩

/-- Witness for C1: two runs over the constant-zero streams. -/
theorem c1_witness :
    new_map_rooms_and_corridors (fun _ => 0) (fun _ => 0)
      = new_map_rooms_and_corridors (fun _ => 0) (fun _ => 0) :=
  (c1_generation_deterministic (fun _ => 0) (fun _ => 0) (fun _ => 0) (fun _ => 0)
    (fun _ => rfl) (fun _ => rfl)).1

/-- C6: any two accepted rooms at distinct positions of the generated room
list do not intersect (inclusive-bounds `intersect`, so they do not even
touch). -/
theorem c6_rooms_pairwise_non_overlapping (rng rng2 : Nat → Nat) (i j : Nat)
    (hi : i < (new_map_rooms_and_corridors rng rng2).rooms.length)
    (hj : j < (new_map_rooms_and_corridors rng rng2).rooms.length)
    (hij : i ≠ j) :
    ((new_map_rooms_and_corridors rng rng2).rooms.get ⟨i, hi⟩).intersect
      ((new_map_rooms_and_corridors rng rng2).rooms.get ⟨j, hj⟩) = false := by
  have hpw := new_map_pairwise rng rng2
  rw [List.pairwise_iff_get] at hpw
  rcases Nat.lt_or_ge i j with h | h
  · exact hpw ⟨i, hi⟩ ⟨j, hj⟩ h
  · have h' : j < i := by omega
    rw [intersect_symm]
    exact hpw ⟨j, hj⟩ ⟨i, hi⟩ h'

/-- Witness for C6: the first two rooms generated from the identity streams
do not intersect. -/
theorem c6_witness :
    ((new_map_rooms_and_corridors (fun k => k) (fun k => k)).rooms.get
        ⟨0, by decide⟩).intersect
      ((new_map_rooms_and_corridors (fun k => k) (fun k => k)).rooms.get
        ⟨1, by decide⟩) = false :=
  c6_rooms_pairwise_non_overlapping (fun k => k) (fun k => k) 0 1
    (by decide) (by decide) (by decide)

/-- C7: in the final generated grid, every interior tile
`[x1+1,x2] × [y1+1,y2]` of every accepted room is `Floor`. -/
theorem c7_room_interiors_floor (rng rng2 : Nat → Nat) (r : Rect)
    (hr : r ∈ (new_map_rooms_and_corridors rng rng2).rooms) (x y : Int)
    (hx1 : r.x1 + 1 ≤ x) (hx2 : x ≤ r.x2) (hy1 : r.y1 + 1 ≤ y) (hy2 : y ≤ r.y2) :
    (new_map_rooms_and_corridors rng rng2).tiles[xy_idx x y]? = some TileType.Floor :=
  new_map_carved rng rng2 r hr x y hx1 hx2 hy1 hy2

/-- Witness for C7: the constant-zero streams accept the single room
`(0,0,6,6)`; its interior tile `(1,1)` is `Floor`. -/
theorem c7_witness :
    (new_map_rooms_and_corridors (fun _ => 0) (fun _ => 0)).tiles[xy_idx 1 1]?
      = some TileType.Floor :=
  c7_room_interiors_floor (fun _ => 0) (fun _ => 0)
    { x1 := 0, y1 := 0, x2 := 6, y2 := 6 } (by decide) 1 1
    (by decide) (by decide) (by decide) (by decide)

/-- C8: every accepted room after the first is connected to the immediately
preceding accepted room by a 4-connected path of `Floor` tiles between their
centers, in the final grid. -/
theorem c8_chain_connectivity (rng rng2 : Nat → Nat) (i : Nat)
    (h : i + 1 < (new_map_rooms_and_corridors rng rng2).rooms.length) :
    FloorPath (new_map_rooms_and_corridors rng rng2).tiles
      (((new_map_rooms_and_corridors rng rng2).rooms.get ⟨i + 1, h⟩).center)
      (((new_map_rooms_and_corridors rng rng2).rooms.get ⟨i, Nat.lt_of_succ_lt h⟩).center) := by
  apply new_map_chain rng rng2 i
  · rw [List.getElem?_eq_getElem (Nat.lt_of_succ_lt h), List.get_eq_getElem]
  · rw [List.getElem?_eq_getElem h, List.get_eq_getElem]

/-- Witness for C8: with the identity streams (which accept at least two
rooms), the second room's center is `Floor`-connected to the first's. -/
theorem c8_witness :
    FloorPath (new_map_rooms_and_corridors (fun k => k) (fun k => k)).tiles
      (((new_map_rooms_and_corridors (fun k => k) (fun k => k)).rooms.get
        ⟨1, by decide⟩).center)
      (((new_map_rooms_and_corridors (fun k => k) (fun k => k)).rooms.get
        ⟨0, by decide⟩).center) :=
  c8_chain_connectivity (fun k => k) (fun k => k) 0 (by decide)

/-- Counterexample to C9: the `rooms` array does not share the tiles arrays'
length — with the constant-zero streams the generated map has
`rooms.length ≤ 30 < 4000 = tiles.length`. -/
theorem c9_counterexample :
    (new_map_rooms_and_corridors (fun _ => 0) (fun _ => 0)).rooms.length ≠
      (new_map_rooms_and_corridors (fun _ => 0) (fun _ => 0)).tiles.length := by
  have h1 := new_map_len_tiles (fun _ => 0) (fun _ => 0)
  have h2 : (new_map_rooms_and_corridors (fun _ => 0) (fun _ => 0)).rooms.length ≤ 30 := by
    rw [new_map_rooms_eq]
    have h := foldl_rooms_length (fun _ => 0) (fun _ => 0) (List.range 30) (initialMap, [])
    simpa using h
  omega

/-- C9 amended: in every generated map the three per-tile arrays — `tiles`,
`revealed_tiles`, `visible_tiles` — share the fixed length
`WIDTH * HEIGHT = 4000`, while `rooms` is the accepted-room list of length
at most `MAX_ROOMS = 30`. -/
theorem c9_amended_array_lengths (rng rng2 : Nat → Nat) :
    (new_map_rooms_and_corridors rng rng2).tiles.length = 80 * 50 ∧
    (new_map_rooms_and_corridors rng rng2).revealed_tiles.length = 80 * 50 ∧
    (new_map_rooms_and_corridors rng rng2).visible_tiles.length = 80 * 50 ∧
    (new_map_rooms_and_corridors rng rng2).rooms.length ≤ 30 := by
  refine ⟨new_map_len_tiles rng rng2, new_map_len_revealed rng rng2,
    new_map_len_visible rng rng2, ?_⟩
  rw [new_map_rooms_eq]
  have h := foldl_rooms_length rng rng2 (List.range 30) (initialMap, [])
  simpa using h

/-- C10: every tile on the grid boundary (`x = 0`, `x = 79`, `y = 0` or
`y = 49`) of a generated map is `Wall`: all `Floor` writes land strictly
inside the border. -/
theorem c10_border_tiles_wall (rng rng2 : Nat → Nat) (x y : Int)
    (hx0 : 0 ≤ x) (hx : x < 80) (hy0 : 0 ≤ y) (hy : y < 50)
    (hb : x = 0 ∨ x = 79 ∨ y = 0 ∨ y = 49) :
    (new_map_rooms_and_corridors rng rng2).tiles[xy_idx x y]? = some TileType.Wall := by
  have hfi := new_map_floorsInterior rng rng2
  have hlt : xy_idx x y < (new_map_rooms_and_corridors rng rng2).tiles.length := by
    rw [new_map_len_tiles rng rng2]
    exact xy_idx_lt hx0 hx hy0 hy
  have hsome : (new_map_rooms_and_corridors rng rng2).tiles[xy_idx x y]?
      = some ((new_map_rooms_and_corridors rng rng2).tiles.get ⟨xy_idx x y, hlt⟩) := by
    rw [List.getElem?_eq_getElem hlt, List.get_eq_getElem]
  rcases htile : (new_map_rooms_and_corridors rng rng2).tiles.get ⟨xy_idx x y, hlt⟩ with _ | _
  · rw [hsome, htile]
  · exfalso
    have hfl : (new_map_rooms_and_corridors rng rng2).tiles[xy_idx x y]?
        = some TileType.Floor := by rw [hsome, htile]
    obtain ⟨x', y', hx1', hx2', hy1', hy2', heq⟩ := hfi _ hfl
    obtain ⟨hxx, hyy⟩ :=
      xy_idx_inj hx0 hx hy0 hy (by omega) (by omega) (by omega) (by omega) heq
    omega

/-- Witness for C10: the corner tile `(0,0)` of the constant-zero-stream
generation is `Wall`. -/
theorem c10_witness :
    (new_map_rooms_and_corridors (fun _ => 0) (fun _ => 0)).tiles[xy_idx 0 0]?
      = some TileType.Wall :=
  c10_border_tiles_wall (fun _ => 0) (fun _ => 0) 0 0
    (by decide) (by decide) (by decide) (by decide) (by decide)

end RustyRogue
